import Mathlib

/-!
Verification of the container-listing tool `docker_ps.py`.

Strings are modelled as `List Char`; Python's substring test (`in`), its
regular-expression scans (which for the patterns used here are plain
left-to-right literal/character-class scans with no backtracking), its
integer formatting (`f"{n:2d}"`), and its stable `list.sort` by a key tuple
are modelled by the executable functions below.  Each definition is a direct
translation of the function of the same name in `docker_ps.py`; effectful
calls (the `docker ps` list query and the per-container `docker inspect`)
are modelled by explicit parameters (`Except` for the query result, an
`Option Int` valued function for the inspect-derived uptime in seconds).
-/

/-- Python's substring test `pat in s` on strings: `pat` occurs contiguously in `s`. -/
def isSubstr (pat : List Char) : List Char → Bool
  | [] => pat.isEmpty
  | c :: rest => pat.isPrefixOf (c :: rest) || isSubstr pat rest

/-- Python's `str.lower()` restricted to the per-character ASCII mapping. -/
def lowerCase (s : List Char) : List Char := s.map Char.toLower

/-- A parsed container record, as produced by the `docker ps --format json` query
(`ID`, `Names`, `Status`, `Ports`, `Labels` fields; absent fields default to `""`). -/
structure Container where
  ID : List Char
  Names : List Char
  Status : List Char
  Ports : List Char
  Labels : List Char
deriving DecidableEq

/-- `get_simple_status` from `docker_ps.py` (lines 127-150): lower-case the status
text and test substrings in the source's fixed order. -/
def get_simple_status (status : List Char) : List Char :=
  if isSubstr ("healthy".toList) (lowerCase status) then ("healthy".toList)
  else if isSubstr ("unhealthy".toList) (lowerCase status) then ("unhealthy".toList)
  else if isSubstr ("starting".toList) (lowerCase status) then ("starting".toList)
  else if isSubstr ("up".toList) (lowerCase status) then ("running".toList)
  else if isSubstr ("exited (0)".toList) (lowerCase status) then ("stopped".toList)
  else if isSubstr ("exited".toList) (lowerCase status) then ("error".toList)
  else if isSubstr ("dead".toList) (lowerCase status) then ("dead".toList)
  else if isSubstr ("paused".toList) (lowerCase status) then ("paused".toList)
  else if isSubstr ("restarting".toList) (lowerCase status) then ("restarting".toList)
  else ("unknown".toList)

/-- Right-justify to width `w` with spaces, as Python's string formatting does. -/
def rjust (w : Nat) (s : List Char) : List Char := List.replicate (w - s.length) ' ' ++ s

/-- Decimal digits of a natural number, as in Python's `str(n)` for `n ≥ 0`. -/
def natRepr (n : Nat) : List Char := Nat.toDigits 10 n

/-- Python's `str(n)` for an arbitrary integer. -/
def intRepr (n : Int) : List Char :=
  if n < 0 then '-' :: natRepr n.natAbs else natRepr n.natAbs

/-- Python's `f"{n:2d}"` for a natural number. -/
def fmt2dN (n : Nat) : List Char := rjust 2 (natRepr n)

/-- Python's `f"{n:2d}"` for an integer. -/
def fmt2dI (n : Int) : List Char := rjust 2 (intRepr n)

/-- The unit-threshold formatting of a whole-second uptime, from
`get_container_uptime` (lines 58-74); Python's `//` is floor division. -/
def format_uptime (uptime_seconds : Int) : List Char :=
  if uptime_seconds < 60 then
    fmt2dI uptime_seconds ++ (" s".toList)
  else if uptime_seconds < 3600 then
    fmt2dI (Int.fdiv uptime_seconds 60) ++ (" m".toList)
  else if uptime_seconds < 86400 then
    fmt2dI (Int.fdiv uptime_seconds 3600) ++ (" h".toList)
  else if uptime_seconds < 2592000 then
    fmt2dI (Int.fdiv uptime_seconds 86400) ++ (" d".toList)
  else if uptime_seconds < 31536000 then
    fmt2dI (Int.fdiv uptime_seconds 2592000) ++ (" mo".toList)
  else
    fmt2dI (Int.fdiv uptime_seconds 31536000) ++ (" y".toList)

/-- `get_container_uptime` (lines 43-78).  The whole `try` block — the inspect
subprocess, the timestamp parse and the delta to now — is modelled by the
`startResult` argument: `some n` when it produced an uptime of `n` whole
seconds, `none` when any exception was raised.  The `except` branch returns
the placeholder directly (the status-text fallback is not invoked there). -/
def get_container_uptime (startResult : Option Int) : List Char :=
  match startResult with
  | some uptime_seconds => format_uptime uptime_seconds
  | none => ("   ?".toList)

/-- Python's `\s` character class. -/
def isSpaceChar (c : Char) : Bool :=
  c == ' ' || c == '\t' || c == '\n' || c == '\r' || c == '\x0b' || c == '\x0c'

/-- Value of a digit string, as Python's `int` on the captured group. -/
def natOfDigits (ds : List Char) : Nat :=
  ds.foldl (fun acc c => 10 * acc + (c.toNat - 48)) 0

/-- `re.search(r'(\d+)\s+' + word, s)`: leftmost position where a maximal digit
run, then at least one whitespace character, then the literal `word` occur;
returns the value of the digit run.  For this pattern greedy maximal-munch
scanning is exact (digits, whitespace and the first letter of each time word
are disjoint character classes, so no backtracking can occur). -/
def findNum (word : List Char) : List Char → Option Nat
  | [] => none
  | c :: rest =>
    if ((c :: rest).takeWhile Char.isDigit) = [] then findNum word rest
    else if (((c :: rest).drop ((c :: rest).takeWhile Char.isDigit).length).takeWhile isSpaceChar) = [] then
      findNum word rest
    else if word.isPrefixOf (((c :: rest).drop ((c :: rest).takeWhile Char.isDigit).length).drop
        (((c :: rest).drop ((c :: rest).takeWhile Char.isDigit).length).takeWhile isSpaceChar).length) then
      some (natOfDigits ((c :: rest).takeWhile Char.isDigit))
    else findNum word rest

/-- `parse_status_for_time` (lines 80-100): the `if`/`elif` chain over the four
time words; a branch whose word is present but whose regex fails falls through
to the final placeholder without trying the later words. -/
def parse_status_for_time (status : List Char) : List Char :=
  if isSubstr ("second".toList) status then
    match findNum ("second".toList) status with
    | some n => fmt2dN n ++ (" s".toList)
    | none => ("   ?".toList)
  else if isSubstr ("minute".toList) status then
    match findNum ("minute".toList) status with
    | some n => fmt2dN n ++ (" m".toList)
    | none => ("   ?".toList)
  else if isSubstr ("hour".toList) status then
    match findNum ("hour".toList) status with
    | some n => fmt2dN n ++ (" h".toList)
    | none => ("   ?".toList)
  else if isSubstr ("day".toList) status then
    match findNum ("day".toList) status with
    | some n => fmt2dN n ++ (" d".toList)
    | none => ("   ?".toList)
  else ("   ?".toList)

/-- The literal part of the pattern `0\.0\.0\.0:(\d+)` in `extract_external_ports`. -/
def PAT : List Char := ("0.0.0.0:".toList)

/-- `re.findall(r'0\.0\.0\.0:(\d+)', s)`: successive leftmost non-overlapping
matches; after a match the scan resumes past the captured digits, after a
failed position it advances one character.  Fuel-driven so that the kernel can
evaluate it; fuel `s.length` always suffices since every step consumes at
least one character while spending one unit of fuel. -/
def findallPortsAux : Nat → List Char → List (List Char)
  | 0, _ => []
  | _ + 1, [] => []
  | fuel + 1, c :: rest =>
    if PAT.isPrefixOf (c :: rest) then
      if (((c :: rest).drop PAT.length).takeWhile Char.isDigit) = [] then
        findallPortsAux fuel rest
      else
        (((c :: rest).drop PAT.length).takeWhile Char.isDigit) ::
          findallPortsAux fuel
            ((c :: rest).drop (PAT.length + (((c :: rest).drop PAT.length).takeWhile Char.isDigit).length))
    else findallPortsAux fuel rest

/-- All captured groups of the port pattern, in match order. -/
def findallPorts (s : List Char) : List (List Char) := findallPortsAux s.length s

/-- `extract_external_ports` (lines 29-34). -/
def extract_external_ports (ports_str : List Char) : List Char :=
  if ports_str = [] then []
  else if findallPorts ports_str = [] then []
  else List.intercalate ([',']) (findallPorts ports_str)

/-- The literal part of the pattern `com\.docker\.compose\.project\.working_dir=([^,]+)`. -/
def KEY : List Char := ("com.docker.compose.project.working_dir=".toList)

/-- `re.search(r'com\.docker\.compose\.project\.working_dir=([^,]+)', labels)`:
leftmost position where the literal key is followed by at least one non-comma
character; returns the maximal non-comma run after the key. -/
def searchWorkdir : List Char → Option (List Char)
  | [] => none
  | c :: rest =>
    if KEY.isPrefixOf (c :: rest) then
      if (((c :: rest).drop KEY.length).takeWhile (fun ch => ch != ',')) = [] then
        searchWorkdir rest
      else some (((c :: rest).drop KEY.length).takeWhile (fun ch => ch != ','))
    else searchWorkdir rest

/-- `get_working_dir` (lines 36-41). -/
def get_working_dir (labels : List Char) : List Char :=
  if labels = [] then []
  else
    match searchWorkdir labels with
    | some v => v
    | none => []

/-- `extract_group_from_path` (lines 152-164). -/
def extract_group_from_path (path : List Char) : List Char :=
  if path = [] then ("zzz_other".toList)
  else if isSubstr ("/actions-runner/".toList) path then ("a_github".toList)
  else if ("/opt/".toList).isPrefixOf path then ("b_opt".toList)
  else if ("/var/".toList).isPrefixOf path then ("c_var".toList)
  else ("d_other".toList)

/-- `get_status_style` (lines 102-115). -/
def get_status_style (status : List Char) : List Char :=
  if status = ("healthy".toList) then ("bright_green".toList)
  else if status = ("unhealthy".toList) then ("bright_red".toList)
  else if status = ("running".toList) then ("bright_cyan".toList)
  else if status ∈ [("stopped".toList), ("error".toList)] then ("bright_red".toList)
  else if status ∈ [("starting".toList), ("restarting".toList)] then ("bright_yellow".toList)
  else ("white".toList)

/-- A rich `Text` value: a string together with its style. -/
structure StyledText where
  text : List Char
  style : List Char
deriving DecidableEq

/-- `style_container_name` (lines 117-120). -/
def style_container_name (name status : List Char) : StyledText :=
  ⟨name, get_status_style status⟩

/-- `style_status_text` (lines 122-125). -/
def style_status_text (status : List Char) : StyledText :=
  ⟨status, get_status_style status⟩

/-- One entry of `container_data` in `main` (lines 182-190). -/
structure Row where
  group : List Char
  id : List Char
  name : List Char
  workdir : List Char
  ports : List Char
  uptime : List Char
  status : List Char
deriving DecidableEq

/-- Assembly of one `container_data` entry in `main` (lines 176-190); `inspect`
models `docker inspect` as a map from the container `ID` to the computed uptime
in seconds (`none` on any failure). -/
def buildRow (inspect : List Char → Option Int) (c : Container) : Row :=
  { group := extract_group_from_path (get_working_dir c.Labels)
  , id := c.ID.take 8
  , name := c.Names
  , workdir := if get_working_dir c.Labels = [] then ("-".toList) else get_working_dir c.Labels
  , ports := extract_external_ports c.Ports
  , uptime := get_container_uptime (inspect c.ID)
  , status := get_simple_status c.Status }

/-- Python's string `<` on the displayed text: strict lexicographic comparison
by code point, a proper prefix preceding its extensions. -/
def lexLtB : List Char → List Char → Bool
  | _, [] => false
  | [], _ :: _ => true
  | a :: as, b :: bs =>
    if a.toNat < b.toNat then true
    else if b.toNat < a.toNat then false
    else lexLtB as bs

/-- Python's `<` on the sort key tuple `(x["workdir"], x["name"])` of `main`
(line 193). -/
def pairLtB (a b : Row) : Bool :=
  lexLtB a.workdir b.workdir || (a.workdir == b.workdir && lexLtB a.name b.name)

/-- Stable insertion of a row into an already sorted list: the new row goes
before the first existing row that is not strictly below it. -/
def insertRow (x : Row) : List Row → List Row
  | [] => [x]
  | y :: ys => if pairLtB y x then y :: insertRow x ys else x :: y :: ys

/-- `container_data.sort(key=lambda x: (x["workdir"], x["name"]))` (line 193):
Python's sort is a stable ascending sort by the key tuple; a stable insertion
sort has the same observable behaviour. -/
def sortRows : List Row → List Row
  | [] => []
  | x :: xs => insertRow x (sortRows xs)

/-- One rendered table row of `table.add_row` (lines 207-215). -/
structure RenderedRow where
  idCell : List Char
  nameCell : StyledText
  workdirCell : List Char
  portsCell : List Char
  uptimeCell : List Char
  statusCell : StyledText
deriving DecidableEq

/-- The `table.add_row` call (lines 208-215): the name and status cells are
styled from the row's normalized status, the ports cell substitutes the
placeholder for an empty ports string. -/
def renderRow (r : Row) : RenderedRow :=
  ⟨r.id, style_container_name r.name r.status, r.workdir,
    (if r.ports = [] then ("-".toList) else r.ports), r.uptime, style_status_text r.status⟩

/-- One line of observable output of the program. -/
inductive OutLine where
  | err : List Char → OutLine
  | msg : List Char → OutLine
  | table : List RenderedRow → OutLine
deriving DecidableEq

/-- `get_docker_containers` (lines 12-27): on success the parsed records, on a
non-zero exit an error line is printed and the empty record list is returned.
The result pairs the printed lines with the returned containers. -/
def get_docker_containers (res : Except (List Char) (List Container)) :
    List OutLine × List Container :=
  match res with
  | Except.ok cs => ([], cs)
  | Except.error e => ([OutLine.err (("Error running docker command: ".toList) ++ e)], [])

/-- The processed and sorted `container_data` of `main`. -/
def mainRows (inspect : List Char → Option Int) (cs : List Container) : List Row :=
  sortRows (cs.map (buildRow inspect))

/-- `main` (lines 166-217), as the list of lines it prints.  (Named
`mainOutput` because Lean reserves `main` for executable entry points.) -/
def mainOutput (res : Except (List Char) (List Container)) (inspect : List Char → Option Int) :
    List OutLine :=
  if (get_docker_containers res).2 = [] then
    (get_docker_containers res).1 ++ [OutLine.msg ("No containers found".toList)]
  else
    (get_docker_containers res).1 ++
      [OutLine.table ((mainRows inspect (get_docker_containers res).2).map renderRow)]

/-! ## Substring lemmas -/

/-- `isPrefixOf` characterized by an existential split. -/
theorem isPrefixOf_eq_true_iff (p : List Char) (s : List Char) :
    p.isPrefixOf s = true ↔ ∃ t, s = p ++ t := by
  induction p generalizing s with
  | nil => simp [List.isPrefixOf]
  | cons a as ih =>
    cases s with
    | nil => simp [List.isPrefixOf]
    | cons b bs =>
      simp only [List.isPrefixOf, Bool.and_eq_true, beq_iff_eq, ih, List.cons_append,
        List.cons.injEq]
      constructor
      · rintro ⟨rfl, t, rfl⟩; exact ⟨t, rfl, rfl⟩
      · rintro ⟨t, rfl, rfl⟩; exact ⟨rfl, t, rfl⟩

/-- `isSubstr` characterized by an existential split. -/
theorem isSubstr_eq_true_iff (p : List Char) (s : List Char) :
    isSubstr p s = true ↔ ∃ l r, s = l ++ (p ++ r) := by
  induction s with
  | nil =>
    simp only [isSubstr, List.isEmpty_iff]
    constructor
    · rintro rfl; exact ⟨[], [], rfl⟩
    · rintro ⟨l, r, h⟩
      rcases List.append_eq_nil.mp h.symm with ⟨rfl, h2⟩
      rcases List.append_eq_nil.mp h2 with ⟨rfl, rfl⟩
      rfl
  | cons c cs ih =>
    simp only [isSubstr, Bool.or_eq_true, isPrefixOf_eq_true_iff, ih]
    constructor
    · rintro (⟨t, ht⟩ | ⟨l, r, rfl⟩)
      · exact ⟨[], t, by simpa using ht⟩
      · exact ⟨c :: l, r, rfl⟩
    · rintro ⟨l, r, h⟩
      cases l with
      | nil => exact Or.inl ⟨r, by simpa using h⟩
      | cons x l2 =>
        rw [List.cons_append, List.cons.injEq] at h
        exact Or.inr ⟨l2, r, h.2⟩

/-- The substring relation is transitive. -/
theorem isSubstr_trans {p q s : List Char} (h1 : isSubstr p q = true)
    (h2 : isSubstr q s = true) : isSubstr p s = true := by
  rcases (isSubstr_eq_true_iff _ _).mp h1 with ⟨l1, r1, rfl⟩
  rcases (isSubstr_eq_true_iff _ _).mp h2 with ⟨l2, r2, rfl⟩
  exact (isSubstr_eq_true_iff _ _).mpr ⟨l2 ++ l1, r1 ++ r2, by simp [List.append_assoc]⟩

/-- If a pattern does not occur in `c :: s`, it does not occur in `s`. -/
theorem isSubstr_cons_false {p : List Char} {c : Char} {s : List Char}
    (h : isSubstr p (c :: s) = false) : isSubstr p s = false := by
  have h2 := h
  simp only [isSubstr, Bool.or_eq_false_iff] at h2
  exact h2.2

/-- A pattern that is a prefix is a substring. -/
theorem isSubstr_of_isPrefixOf {p s : List Char} (h : p.isPrefixOf s = true) :
    isSubstr p s = true := by
  rcases (isPrefixOf_eq_true_iff p s).mp h with ⟨t, rfl⟩
  exact (isSubstr_eq_true_iff p (p ++ t)).mpr ⟨[], t, rfl⟩

/-- C10: the status normalizer never returns "restarting": any lower-cased
status containing "restarting" also contains "starting", which is tested
earlier in `get_simple_status`, so the "restarting" branch is unreachable. -/
theorem c10_restarting_unreachable :
    ∀ s : List Char, get_simple_status s ≠ ("restarting".toList) := by
  intro s h
  unfold get_simple_status at h
  by_cases h1 : isSubstr ("healthy".toList) (lowerCase s) = true
  · rw [if_pos h1] at h; exact absurd h (by decide)
  · rw [if_neg h1] at h
    by_cases h2 : isSubstr ("unhealthy".toList) (lowerCase s) = true
    · rw [if_pos h2] at h; exact absurd h (by decide)
    · rw [if_neg h2] at h
      by_cases h3 : isSubstr ("starting".toList) (lowerCase s) = true
      · rw [if_pos h3] at h; exact absurd h (by decide)
      · rw [if_neg h3] at h
        by_cases h4 : isSubstr ("up".toList) (lowerCase s) = true
        · rw [if_pos h4] at h; exact absurd h (by decide)
        · rw [if_neg h4] at h
          by_cases h5 : isSubstr ("exited (0)".toList) (lowerCase s) = true
          · rw [if_pos h5] at h; exact absurd h (by decide)
          · rw [if_neg h5] at h
            by_cases h6 : isSubstr ("exited".toList) (lowerCase s) = true
            · rw [if_pos h6] at h; exact absurd h (by decide)
            · rw [if_neg h6] at h
              by_cases h7 : isSubstr ("dead".toList) (lowerCase s) = true
              · rw [if_pos h7] at h; exact absurd h (by decide)
              · rw [if_neg h7] at h
                by_cases h8 : isSubstr ("paused".toList) (lowerCase s) = true
                · rw [if_pos h8] at h; exact absurd h (by decide)
                · rw [if_neg h8] at h
                  by_cases h9 : isSubstr ("restarting".toList) (lowerCase s) = true
                  · exact h3 (isSubstr_trans (by decide) h9)
                  · rw [if_neg h9] at h; exact absurd h (by decide)

/-- C5: status normalization is a total function into the closed keyword set,
and the spec's order-sensitivity examples hold: "Exited (0) 2 hours ago" maps
to "stopped" ("exited (0)" is tested before the generic "exited"),
"Exited (1) 2 hours ago" to "error", "Up 5 minutes" to "running", and an input
matching no pattern to "unknown". -/
theorem c5_status_normalization_total :
    (∀ s : List Char, get_simple_status s ∈
      [("healthy".toList), ("unhealthy".toList), ("starting".toList), ("running".toList),
       ("stopped".toList), ("error".toList), ("dead".toList), ("paused".toList),
       ("restarting".toList), ("unknown".toList)]) ∧
    get_simple_status ("Exited (0) 2 hours ago".toList) = ("stopped".toList) ∧
    get_simple_status ("Exited (1) 2 hours ago".toList) = ("error".toList) ∧
    get_simple_status ("Up 5 minutes".toList) = ("running".toList) ∧
    get_simple_status ("???".toList) = ("unknown".toList) := by
  refine ⟨fun s => ?_, by decide, by decide, by decide, by decide⟩
  unfold get_simple_status
  repeat' split
  all_goals decide

/-- C1: the claim fails in the code: `get_simple_status` tests "healthy" before
"unhealthy", and "healthy" is a substring of "unhealthy", so the very input the
claim names — "Up 3 hours (unhealthy)", whose lower-casing contains
"unhealthy" — is normalized to "healthy", not "unhealthy". -/
theorem c1_unhealthy_shadowed :
    isSubstr ("unhealthy".toList) (lowerCase ("Up 3 hours (unhealthy)".toList)) = true ∧
    get_simple_status ("Up 3 hours (unhealthy)".toList) = ("healthy".toList) := by
  exact ⟨by decide, by decide⟩

/-- C4 counterexample: at the claim's own first example the code emits
"45 s" — 45 already fills the 2-character minimum, so no space is prepended —
while the claim expects " 45 s". -/
theorem c4_fortyfive_counterexample :
    format_uptime 45 = ("45 s".toList) ∧ ("45 s".toList) ≠ (" 45 s".toList) := by
  exact ⟨by decide, by decide⟩

/-- C4 (amended): uptime formatting uses floor division at the fixed
thresholds with the value right-justified to a 2-character minimum; the
claim's examples hold with the 45-second case yielding "45 s" (two digits
need no padding), and the boundary values witness the exact thresholds. -/
theorem c4_uptime_format_amended :
    format_uptime 45 = ("45 s".toList) ∧
    format_uptime 125 = (" 2 m".toList) ∧
    format_uptime 7300 = (" 2 h".toList) ∧
    format_uptime 200000 = (" 2 d".toList) ∧
    format_uptime 5200000 = (" 2 mo".toList) ∧
    format_uptime 70000000 = (" 2 y".toList) ∧
    format_uptime 59 = ("59 s".toList) ∧
    format_uptime 60 = (" 1 m".toList) ∧
    format_uptime 3599 = ("59 m".toList) ∧
    format_uptime 3600 = (" 1 h".toList) ∧
    format_uptime 86399 = ("23 h".toList) ∧
    format_uptime 86400 = (" 1 d".toList) ∧
    format_uptime 2591999 = ("29 d".toList) ∧
    format_uptime 2592000 = (" 1 mo".toList) ∧
    format_uptime 31535999 = ("12 mo".toList) ∧
    format_uptime 31536000 = (" 1 y".toList) := by
  decide

/-- C2: the claim fails in the code: whenever the inspect call fails,
`get_container_uptime` returns the placeholder directly and the status-text
fallback `parse_status_for_time` is never consulted — even though, as the
second conjunct shows, it would have produced " 5 m" for the status
"Up 5 minutes".  The third conjunct states the end-to-end behaviour: a row
whose inspect call fails always shows "   ?", whatever its status text. -/
theorem c2_fallback_never_used :
    get_container_uptime none = ("   ?".toList) ∧
    parse_status_for_time ("Up 5 minutes".toList) = (" 5 m".toList) ∧
    (∀ (inspect : List Char → Option Int) (c : Container),
      inspect c.ID = none → (buildRow inspect c).uptime = ("   ?".toList)) := by
  refine ⟨by decide, by decide, fun inspect c h => ?_⟩
  simp [buildRow, get_container_uptime, h]

/-- C2 witness: a concrete container whose inspect call fails renders the
placeholder uptime. -/
theorem c2_fallback_never_used_witness :
    (buildRow (fun _ => none)
      ⟨("abcdef012345".toList), ("web".toList), ("Up 5 minutes".toList), [], []⟩).uptime
      = ("   ?".toList) :=
  c2_fallback_never_used.2.2 (fun _ => none) _ rfl

/-- If the literal "0.0.0.0:" never occurs in the input, the port scan finds
no match, whatever the fuel. -/
theorem findallPortsAux_eq_nil (fuel : Nat) :
    ∀ s : List Char, isSubstr PAT s = false → findallPortsAux fuel s = [] := by
  induction fuel with
  | zero => intro s h; rfl
  | succ f ih =>
    intro s h
    cases s with
    | nil => rfl
    | cons c rest =>
      have h2 := h
      simp only [isSubstr, Bool.or_eq_false_iff] at h2
      simp [findallPortsAux, h2.1, ih rest h2.2]

/-- C3 counterexample: the extractor does not deduplicate: a ports string in
which "0.0.0.0:80" occurs twice yields "80,80", not the single "80" that the
claim's "each distinct port appearing once" requires. -/
theorem c3_distinct_counterexample :
    extract_external_ports ("0.0.0.0:80->80/tcp, 0.0.0.0:80->80/tcp".toList)
      = ("80,80".toList) ∧ ("80,80".toList) ≠ ("80".toList) := by
  exact ⟨by decide, by decide⟩

/-- C3 (amended): the extractor returns the port digits captured at successive
left-to-right non-overlapping matches of "0.0.0.0:<port>", comma-joined in
match order, with a repeated port repeated in the output; for input with no
occurrence of the pattern, and for empty input, it returns the empty string. -/
theorem c3_ports_amended :
    (∀ s : List Char, isSubstr PAT s = false → extract_external_ports s = []) ∧
    extract_external_ports [] = [] ∧
    extract_external_ports ("0.0.0.0:8080->8080/tcp, 0.0.0.0:443->443/tcp".toList)
      = ("8080,443".toList) ∧
    extract_external_ports ("0.0.0.0:80->80/tcp, 0.0.0.0:80->80/tcp".toList)
      = ("80,80".toList) := by
  refine ⟨fun s h => ?_, by decide, by decide, by decide⟩
  by_cases hs : s = []
  · simp [extract_external_ports, hs]
  · simp [extract_external_ports, hs, findallPorts, findallPortsAux_eq_nil _ _ h]

/-- C3 witness: a ports string without the all-interfaces pattern yields the
empty string. -/
theorem c3_ports_amended_witness :
    isSubstr PAT ("9090/tcp, :::9090".toList) = false ∧
    extract_external_ports ("9090/tcp, :::9090".toList) = [] :=
  ⟨by decide, c3_ports_amended.1 ("9090/tcp, :::9090".toList) (by decide)⟩

/-- If two concatenations agree and the first left part is at most as long as
the second, the second left part extends the first. -/
theorem append_eq_append_exists (p : List Char) :
    ∀ (q a b : List Char), p ++ a = q ++ b → p.length ≤ q.length → ∃ m, q = p ++ m := by
  induction p with
  | nil => intro q a b h hl; exact ⟨q, rfl⟩
  | cons x p2 ih =>
    intro q a b h hl
    cases q with
    | nil => simp at hl
    | cons y q2 =>
      simp only [List.cons_append, List.cons.injEq] at h
      obtain ⟨m, hm⟩ := ih q2 a b h.2 (by simpa using hl)
      exact ⟨m, by rw [List.cons_append, ← hm, h.1]⟩

/-- `takeWhile` runs through a block on which the predicate holds. -/
theorem takeWhile_append_all {f : Char → Bool} :
    ∀ (v r : List Char), (∀ c ∈ v, f c = true) →
      List.takeWhile f (v ++ r) = v ++ List.takeWhile f r := by
  intro v r hv
  induction v with
  | nil => simp
  | cons c v2 ih =>
    have hc : f c = true := hv c (by simp)
    simp only [List.cons_append, List.takeWhile_cons, hc, if_true]
    rw [ih (fun d hd => hv d (by simp [hd]))]

/-- Unfolding equation of `searchWorkdir` on a non-empty list, phrased through
`tail` so that it applies to appended forms. -/
theorem searchWorkdir_eq (s : List Char) (hs : s ≠ []) :
    searchWorkdir s =
      if KEY.isPrefixOf s then
        if ((s.drop KEY.length).takeWhile (fun ch => ch != ',')) = [] then
          searchWorkdir s.tail
        else some ((s.drop KEY.length).takeWhile (fun ch => ch != ','))
      else searchWorkdir s.tail := by
  cases s with
  | nil => exact absurd rfl hs
  | cons c rest => rfl

/-- Core of C7: if the key occurs with a non-empty comma-free value `v`
delimited by a comma or the end of the string, and the key does not occur
earlier, the scan returns exactly `v`. -/
theorem searchWorkdir_found (l : List Char) :
    ∀ (v r : List Char), v ≠ [] → (∀ c ∈ v, c ≠ ',') →
      (r = [] ∨ ∃ r2, r = ',' :: r2) →
      isSubstr KEY (l ++ KEY.dropLast) = false →
      searchWorkdir (l ++ (KEY ++ (v ++ r))) = some v := by
  induction l with
  | nil =>
    intro v r hv hcomma hr hearlier
    rw [List.nil_append]
    have hne : KEY ++ (v ++ r) ≠ [] := by
      intro h
      have := congrArg List.length h
      simp [KEY] at this
    rw [searchWorkdir_eq _ hne]
    have hpre : KEY.isPrefixOf (KEY ++ (v ++ r)) = true :=
      (isPrefixOf_eq_true_iff _ _).mpr ⟨v ++ r, rfl⟩
    rw [hpre, if_pos rfl, List.drop_left]
    have hall : ∀ c ∈ v, (fun ch => ch != ',') c = true := by
      intro c hc
      simpa using hcomma c hc
    rw [takeWhile_append_all v r hall]
    have hrtail : List.takeWhile (fun ch => ch != ',') r = [] := by
      rcases hr with rfl | ⟨r2, rfl⟩
      · rfl
      · simp [List.takeWhile_cons]
    rw [hrtail, List.append_nil, if_neg hv]
  | cons c0 l2 ih =>
    intro v r hv hcomma hr hearlier
    have hne : (c0 :: l2) ++ (KEY ++ (v ++ r)) ≠ [] := by simp
    rw [searchWorkdir_eq _ hne]
    have hsplit : KEY = KEY.dropLast ++ ['='] := by decide
    have hnp : KEY.isPrefixOf ((c0 :: l2) ++ (KEY ++ (v ++ r))) = false := by
      cases hx : KEY.isPrefixOf ((c0 :: l2) ++ (KEY ++ (v ++ r))) with
      | false => rfl
      | true =>
        exfalso
        obtain ⟨t, ht⟩ := (isPrefixOf_eq_true_iff _ _).mp hx
        have hre : (c0 :: l2) ++ (KEY ++ (v ++ r))
            = ((c0 :: l2) ++ KEY.dropLast) ++ ('=' :: (v ++ r)) := by
          rw [hsplit]
          simp
        rw [hre] at ht
        have hlen : KEY.length ≤ ((c0 :: l2) ++ KEY.dropLast).length := by
          have h1 : KEY.length = 39 := by decide
          have h2 : KEY.dropLast.length = 38 := by decide
          simp [List.length_append, h1, h2]
        obtain ⟨m, hm⟩ := append_eq_append_exists KEY _ t ('=' :: (v ++ r)) ht.symm hlen
        have : isSubstr KEY ((c0 :: l2) ++ KEY.dropLast) = true :=
          (isSubstr_eq_true_iff _ _).mpr ⟨[], m, by simpa using hm⟩
        rw [this] at hearlier
        exact absurd hearlier (by decide)
    rw [hnp, if_neg (by decide : ¬ (false = true))]
    have hearlier2 : isSubstr KEY (l2 ++ KEY.dropLast) = false :=
      isSubstr_cons_false (by simpa using hearlier)
    simpa using ih v r hv hcomma hr hearlier2

/-- If the key never occurs in the labels, the scan finds nothing. -/
theorem searchWorkdir_none :
    ∀ labels : List Char, isSubstr KEY labels = false → searchWorkdir labels = none := by
  intro labels h
  induction labels with
  | nil => rfl
  | cons c rest ih =>
    have h2 := h
    simp only [isSubstr, Bool.or_eq_false_iff] at h2
    simp [searchWorkdir, h2.1, ih h2.2]

/-- C7: for every labels string containing the working-dir key followed by a
non-empty comma-free value (delimited by a comma or the end of the string, and
with no earlier occurrence of the key), `get_working_dir` returns exactly the
characters after "=" up to the next comma or end of string; for a labels
string not containing the key, and for empty labels, it returns the empty
string. -/
theorem c7_working_dir :
    (∀ (l v r : List Char), v ≠ [] → (∀ c ∈ v, c ≠ ',') →
      (r = [] ∨ ∃ r2, r = ',' :: r2) →
      isSubstr KEY (l ++ KEY.dropLast) = false →
      get_working_dir (l ++ (KEY ++ (v ++ r))) = v) ∧
    (∀ labels : List Char, isSubstr KEY labels = false → get_working_dir labels = []) ∧
    get_working_dir [] = [] := by
  refine ⟨fun l v r hv hcomma hr hearlier => ?_, fun labels h => ?_, rfl⟩
  · have hne : l ++ (KEY ++ (v ++ r)) ≠ [] := by
      intro h
      have := congrArg List.length h
      simp [KEY] at this
    have hfound := searchWorkdir_found l v r hv hcomma hr hearlier
    simp [get_working_dir, hne, hfound]
  · by_cases hl : labels = []
    · simp [get_working_dir, hl]
    · simp [get_working_dir, hl, searchWorkdir_none labels h]

/-- C7 witness: a concrete labels blob with leading and trailing labels around
the working-dir key yields the value between "=" and the next comma. -/
theorem c7_working_dir_witness :
    get_working_dir (("a=1,".toList) ++ (KEY ++ (("/var/app".toList) ++ (",b=2".toList))))
      = ("/var/app".toList) :=
  c7_working_dir.1 ("a=1,".toList) ("/var/app".toList) (",b=2".toList)
    (by decide) (by decide) (Or.inr ⟨("b=2".toList), rfl⟩) (by decide)

/-! ## Lexicographic order lemmas for the sort key -/

/-- The string comparison is irreflexive. -/
theorem lexLtB_irrefl : ∀ x : List Char, lexLtB x x = false := by
  intro x
  induction x with
  | nil => rfl
  | cons a as ih => simp [lexLtB, ih]

/-- A strict comparison in one direction refutes it in the other. -/
theorem lexLtB_asym : ∀ x y : List Char, lexLtB x y = true → lexLtB y x = false := by
  intro x
  induction x with
  | nil =>
    intro y h
    cases y with
    | nil => exact absurd h (by decide)
    | cons b bs => simp [lexLtB]
  | cons a as ih =>
    intro y h
    cases y with
    | nil => simp [lexLtB] at h
    | cons b bs =>
      simp only [lexLtB] at h ⊢
      by_cases h1 : a.toNat < b.toNat
      · have h2 : ¬ b.toNat < a.toNat := by omega
        simp [h1, h2]
      · by_cases h2 : b.toNat < a.toNat
        · simp [h1, h2] at h
        · have h3 : lexLtB as bs = true := by simpa [h1, h2] using h
          simp [h1, h2, ih bs h3]

/-- Two strings neither of which is below the other are equal. -/
theorem lexLtB_connected : ∀ x y : List Char,
    lexLtB x y = false → lexLtB y x = false → x = y := by
  intro x
  induction x with
  | nil =>
    intro y h1 h2
    cases y with
    | nil => rfl
    | cons b bs => simp [lexLtB] at h1
  | cons a as ih =>
    intro y h1 h2
    cases y with
    | nil => simp [lexLtB] at h2
    | cons b bs =>
      simp only [lexLtB] at h1 h2
      by_cases hab : a.toNat < b.toNat
      · simp [hab] at h1
      · by_cases hba : b.toNat < a.toNat
        · simp [hab, hba] at h2
        · have hEq : a.toNat = b.toNat := by omega
          have ha : a = b := by
            have e1 := Char.ofNat_toNat a
            have e2 := Char.ofNat_toNat b
            rw [← e1, ← e2, hEq]
          have h1r : lexLtB as bs = false := by simpa [hab, hba] using h1
          have h2r : lexLtB bs as = false := by simpa [hab, hba] using h2
          rw [ha, ih bs h1r h2r]

/-- The string comparison is transitive. -/
theorem lexLtB_trans : ∀ x y z : List Char,
    lexLtB x y = true → lexLtB y z = true → lexLtB x z = true := by
  intro x
  induction x with
  | nil =>
    intro y z h1 h2
    cases y with
    | nil => exact absurd h1 (by decide)
    | cons b bs =>
      cases z with
      | nil => simp [lexLtB] at h2
      | cons c cs => simp [lexLtB]
  | cons a as ih =>
    intro y z h1 h2
    cases y with
    | nil => simp [lexLtB] at h1
    | cons b bs =>
      cases z with
      | nil => simp [lexLtB] at h2
      | cons c cs =>
        simp only [lexLtB] at h1 h2 ⊢
        by_cases hab : a.toNat < b.toNat
        · by_cases hbc : b.toNat < c.toNat
          · simp [show a.toNat < c.toNat by omega]
          · by_cases hcb : c.toNat < b.toNat
            · simp [hbc, hcb] at h2
            · simp [show a.toNat < c.toNat by omega]
        · by_cases hba : b.toNat < a.toNat
          · simp [hab, hba] at h1
          · by_cases hbc : b.toNat < c.toNat
            · simp [show a.toNat < c.toNat by omega]
            · by_cases hcb : c.toNat < b.toNat
              · simp [hbc, hcb] at h2
              · have h1r : lexLtB as bs = true := by simpa [hab, hba] using h1
                have h2r : lexLtB bs cs = true := by simpa [hbc, hcb] using h2
                simp [show ¬ a.toNat < c.toNat by omega, show ¬ c.toNat < a.toNat by omega,
                  ih bs cs h1r h2r]

/-- A failed strict comparison means the reverse comparison holds or the
strings are equal. -/
theorem lexLtB_false_iff (x y : List Char) :
    lexLtB x y = false ↔ (lexLtB y x = true ∨ x = y) := by
  constructor
  · intro h
    cases hyx : lexLtB y x with
    | true => exact Or.inl rfl
    | false => exact Or.inr (lexLtB_connected x y h hyx)
  · rintro (h | rfl)
    · exact lexLtB_asym y x h
    · exact lexLtB_irrefl x

/-- Helper: a string is never strictly below itself. -/
theorem lexLtB_not_self {w : List Char} (h : lexLtB w w = true) : False := by
  rw [lexLtB_irrefl] at h
  exact Bool.false_ne_true h

/-- The key-tuple comparison of rows is asymmetric. -/
theorem pairLtB_asym (a b : Row) (h : pairLtB a b = true) : pairLtB b a = false := by
  simp only [pairLtB, Bool.or_eq_true, Bool.and_eq_true, beq_iff_eq] at h
  rcases h with hw | ⟨hweq, hn⟩
  · have h1 : lexLtB b.workdir a.workdir = false := lexLtB_asym _ _ hw
    have h2 : (b.workdir == a.workdir) = false := by
      cases he : (b.workdir == a.workdir) with
      | false => rfl
      | true =>
        exfalso
        have hee : b.workdir = a.workdir := by simpa using he
        rw [hee] at hw
        exact lexLtB_not_self hw
    simp [pairLtB, h1, h2]
  · have h1 : lexLtB b.workdir a.workdir = false := by
      rw [hweq]
      exact lexLtB_irrefl _
    have h2 : lexLtB b.name a.name = false := lexLtB_asym _ _ hn
    simp [pairLtB, h1, h2]

/-- Decomposition of a failed row comparison into the order facts it implies. -/
theorem pairLtB_false_decomp (y x : Row) (h : pairLtB y x = false) :
    (lexLtB x.workdir y.workdir = true ∨ y.workdir = x.workdir) ∧
    (y.workdir ≠ x.workdir ∨ lexLtB x.name y.name = true ∨ y.name = x.name) := by
  simp only [pairLtB, Bool.or_eq_false_iff] at h
  obtain ⟨h1, h2⟩ := h
  refine ⟨(lexLtB_false_iff _ _).mp h1, ?_⟩
  cases hq : (y.workdir == x.workdir) with
  | false =>
    refine Or.inl fun he => ?_
    rw [he] at hq
    simp at hq
  | true =>
    have h3 : lexLtB y.name x.name = false := by
      cases hr : lexLtB y.name x.name with
      | false => rfl
      | true => rw [hq, hr] at h2; exact absurd h2 (by decide)
    exact Or.inr ((lexLtB_false_iff _ _).mp h3)

/-- Being not-strictly-below is transitive on rows (used for sortedness). -/
theorem pairLtB_notlt_trans (x y z : Row) (h1 : pairLtB y x = false)
    (h2 : pairLtB z y = false) : pairLtB z x = false := by
  cases hzx : pairLtB z x with
  | false => rfl
  | true =>
    exfalso
    obtain ⟨a1, a2⟩ := pairLtB_false_decomp y x h1
    obtain ⟨b1, b2⟩ := pairLtB_false_decomp z y h2
    simp only [pairLtB, Bool.or_eq_true, Bool.and_eq_true, beq_iff_eq] at hzx
    rcases hzx with hw | ⟨hweq, hn⟩
    · rcases a1 with ha | ha <;> rcases b1 with hb | hb
      · exact lexLtB_not_self (lexLtB_trans _ _ _ (lexLtB_trans _ _ _ hw ha) hb)
      · have t1 := lexLtB_trans _ _ _ hw ha
        rw [← hb] at t1
        exact lexLtB_not_self t1
      · have hw2 : lexLtB z.workdir y.workdir = true := by rw [ha]; exact hw
        exact lexLtB_not_self (lexLtB_trans _ _ _ hb hw2)
      · rw [hb, ha] at hw
        exact lexLtB_not_self hw
    · rcases a1 with ha | ha <;> rcases b1 with hb | hb
      · have t := lexLtB_trans _ _ _ ha hb
        rw [hweq] at t
        exact lexLtB_not_self t
      · rw [← hb] at ha
        rw [hweq] at ha
        exact lexLtB_not_self ha
      · rw [hweq, ha] at hb
        exact lexLtB_not_self hb
      · have na : lexLtB x.name y.name = true ∨ y.name = x.name := by
          rcases a2 with hne | hrest
          · exact absurd ha hne
          · exact hrest
        have nb : lexLtB y.name z.name = true ∨ z.name = y.name := by
          rcases b2 with hne | hrest
          · exact absurd hb hne
          · exact hrest
        rcases na with hxa | hxa <;> rcases nb with hyb | hyb
        · exact lexLtB_not_self (lexLtB_trans _ _ _ (lexLtB_trans _ _ _ hn hxa) hyb)
        · rw [← hyb] at hxa
          exact lexLtB_not_self (lexLtB_trans _ _ _ hn hxa)
        · rw [hxa] at hyb
          exact lexLtB_not_self (lexLtB_trans _ _ _ hn hyb)
        · rw [hyb, hxa] at hn
          exact lexLtB_not_self hn

/-- Any member of an insertion is the inserted row or an original member. -/
theorem mem_insertRow (z x : Row) : ∀ ys : List Row,
    z ∈ insertRow x ys → z = x ∨ z ∈ ys := by
  intro ys
  induction ys with
  | nil =>
    intro h
    simp [insertRow] at h
    exact Or.inl h
  | cons y ys2 ih =>
    intro h
    by_cases hc : pairLtB y x = true
    · rw [show insertRow x (y :: ys2) = y :: insertRow x ys2 from by
        simp [insertRow, hc]] at h
      rcases List.mem_cons.mp h with h1 | h2
      · exact Or.inr (by simp [h1])
      · rcases ih h2 with h3 | h3
        · exact Or.inl h3
        · exact Or.inr (by simp [h3])
    · rw [show insertRow x (y :: ys2) = x :: y :: ys2 from by
        simp [insertRow, hc]] at h
      rcases List.mem_cons.mp h with h1 | h2
      · exact Or.inl h1
      · exact Or.inr h2

/-- Inserting into a sorted list keeps it sorted. -/
theorem insertRow_pairwise (x : Row) : ∀ ys : List Row,
    List.Pairwise (fun a b => pairLtB b a = false) ys →
    List.Pairwise (fun a b => pairLtB b a = false) (insertRow x ys) := by
  intro ys
  induction ys with
  | nil => intro h; simp [insertRow]
  | cons y ys2 ih =>
    intro h
    rw [List.pairwise_cons] at h
    obtain ⟨hy, hys⟩ := h
    by_cases hc : pairLtB y x = true
    · rw [show insertRow x (y :: ys2) = y :: insertRow x ys2 from by simp [insertRow, hc]]
      rw [List.pairwise_cons]
      refine ⟨fun z hz => ?_, ih hys⟩
      rcases mem_insertRow z x ys2 hz with rfl | hz2
      · exact pairLtB_asym y z hc
      · exact hy z hz2
    · have hc2 : pairLtB y x = false := by
        cases hcc : pairLtB y x with
        | false => rfl
        | true => exact absurd hcc hc
      rw [show insertRow x (y :: ys2) = x :: y :: ys2 from by simp [insertRow, hc]]
      rw [List.pairwise_cons]
      refine ⟨fun z hz => ?_, by rw [List.pairwise_cons]; exact ⟨hy, hys⟩⟩
      rcases List.mem_cons.mp hz with rfl | hz2
      · exact hc2
      · exact pairLtB_notlt_trans x y z hc2 (hy z hz2)

/-- The insertion sort of rows is sorted: no later row is strictly below an
earlier one under the key-tuple comparison. -/
theorem sortRows_pairwise : ∀ l : List Row,
    List.Pairwise (fun a b => pairLtB b a = false) (sortRows l) := by
  intro l
  induction l with
  | nil => simp [sortRows]
  | cons x xs ih => simpa [sortRows] using insertRow_pairwise x (sortRows xs) ih

/-- C6: the rendered rows are sorted ascending by the pair (displayed
working-directory string, name string) under plain lexicographic comparison —
no later row's key is strictly below an earlier row's — and on three
containers with working directories "/var/b", "/var/a" and none, the row with
the empty working directory (displayed as the placeholder "-") comes first,
then "/var/a", then "/var/b", as the name order n3, n2, n1 confirms. -/
theorem c6_rows_sorted :
    (∀ (inspect : List Char → Option Int) (cs : List Container),
      List.Pairwise (fun a b => pairLtB b a = false) (mainRows inspect cs)) ∧
    ((mainRows (fun _ => none)
        [⟨("aaaabbbb1111".toList), ("n1".toList), ("Up 5 minutes".toList), [],
            ("com.docker.compose.project.working_dir=/var/b".toList)⟩,
          ⟨("aaaabbbb2222".toList), ("n2".toList), ("Up 5 minutes".toList), [],
            ("com.docker.compose.project.working_dir=/var/a".toList)⟩,
          ⟨("aaaabbbb3333".toList), ("n3".toList), ("Up 5 minutes".toList), [], []⟩]).map
        Row.workdir = [("-".toList), ("/var/a".toList), ("/var/b".toList)]) ∧
    ((mainRows (fun _ => none)
        [⟨("aaaabbbb1111".toList), ("n1".toList), ("Up 5 minutes".toList), [],
            ("com.docker.compose.project.working_dir=/var/b".toList)⟩,
          ⟨("aaaabbbb2222".toList), ("n2".toList), ("Up 5 minutes".toList), [],
            ("com.docker.compose.project.working_dir=/var/a".toList)⟩,
          ⟨("aaaabbbb3333".toList), ("n3".toList), ("Up 5 minutes".toList), [], []⟩]).map
        Row.name = [("n3".toList), ("n2".toList), ("n1".toList)]) := by
  refine ⟨fun inspect cs => ?_, by decide, by decide⟩
  simpa [mainRows] using sortRows_pairwise (cs.map (buildRow inspect))

/-- C9: within every rendered row the name cell and the status cell carry the
same style, and that style is `get_status_style` of the row's normalized
status; in the assembled pipeline the row's status is the normalized one. -/
theorem c9_style_agreement :
    (∀ r : Row, (renderRow r).nameCell.style = (renderRow r).statusCell.style ∧
      (renderRow r).nameCell.style = get_status_style r.status) ∧
    (∀ (inspect : List Char → Option Int) (c : Container),
      (renderRow (buildRow inspect c)).statusCell.style
        = get_status_style (get_simple_status c.Status)) :=
  ⟨fun _ => ⟨rfl, rfl⟩, fun _ _ => rfl⟩

/-- C8: whenever the query yields zero containers — in particular whenever the
list command failed, which prints an error line and yields the empty record
list — the program prints "No containers found" and emits no table. -/
theorem c8_no_containers :
    (∀ (res : Except (List Char) (List Container)) (inspect : List Char → Option Int),
      (get_docker_containers res).2 = [] →
      mainOutput res inspect
        = (get_docker_containers res).1 ++ [OutLine.msg ("No containers found".toList)]) ∧
    (∀ (e : List Char) (inspect : List Char → Option Int),
      mainOutput (Except.error e) inspect
        = [OutLine.err (("Error running docker command: ".toList) ++ e),
            OutLine.msg ("No containers found".toList)]) ∧
    (∀ (res : Except (List Char) (List Container)) (inspect : List Char → Option Int)
      (rows : List RenderedRow),
      OutLine.table rows ∈ mainOutput res inspect → (get_docker_containers res).2 ≠ []) := by
  refine ⟨fun res inspect h => ?_, fun e inspect => ?_,
    fun res inspect rows hmem habs => ?_⟩
  · simp [mainOutput, h]
  · simp [mainOutput, get_docker_containers]
  · rw [mainOutput, if_pos habs] at hmem
    cases res with
    | ok cs => simp [get_docker_containers] at hmem
    | error e => simp [get_docker_containers] at hmem

/-- C8 witness: a successful query returning no containers prints exactly the
"No containers found" line. -/
theorem c8_no_containers_witness :
    mainOutput (Except.ok ([] : List Container)) (fun _ => none)
      = [OutLine.msg ("No containers found".toList)] := by
  have h := c8_no_containers.1 (Except.ok ([] : List Container)) (fun _ => none) rfl
  simpa [get_docker_containers] using h
